import Mathlib

/-!
Verification of the ParaKey push-to-talk dictation client.

This file gives a shallow embedding of the core data-shaping and
state-handling code of the repository and proves the specified
properties about it:

* the audio Framer (`apps/desktop/electron/audio.ts`): the `data`
  handler's while loop, `flushBuffer`, and the per-session sequence
  counter;
* the session write order of `stopDictation` (main process);
* the stream event handler of `startDictation` (main process);
* `sanitizeText` (`apps/desktop/electron/clipboard.ts`);
* the hold-hotkey tracker (`apps/desktop/electron/hotkeys.ts`);
* `deserializeDictationEvent` (`apps/desktop/electron/grpc-client.ts`);
* the transcript history (`apps/desktop/electron/history.ts`);
* `loadSettings` (`apps/desktop/electron/settings.ts`).

Bytes are modelled as `Nat` (their values are only moved around, and
silence padding uses the byte 0).  JavaScript strings are modelled as
`List Char` of Unicode scalar values; all characters handled by the
sanitizer are in the BMP, so UTF-16 code-unit indexing and scalar-value
indexing agree.  `BigInt` sequence counters are modelled as `Nat`.
-/

namespace ParaKey

/-- An audio frame as defined in `grpc-client.ts`: payload bytes, the
sample rate and channel count, the per-session sequence number, and the
end-of-stream flag. -/
structure AudioFrame where
  audio : List Nat
  sample_rate_hz : Nat
  channels : Nat
  sequence : Nat
  end_of_stream : Bool
deriving DecidableEq

/-- The mutable state of `createAudioStream`: the rolling byte buffer
and the session sequence counter (`let sequence = BigInt(0)`,
`let buffer = Buffer.alloc(0)`). -/
structure FramerState where
  buffer : List Nat
  sequence : Nat
deriving DecidableEq

/-- The while loop of the `data` handler in `createAudioStream`:
`while (buffer.length >= frameBytes)` it takes the first `frameBytes`
bytes as a frame (sequence `sequence++`, `end_of_stream: false`) and
drops them from the buffer.  The loop is modelled with explicit fuel so
that it is structurally recursive; one byte list element is consumed
per iteration, so fuel `buf.length` is always enough when
`0 < fb` (for `fb = 0` the JavaScript loop would not terminate, which
the guard `0 < fb` records). -/
def dataLoopFuel (fb sr ch : Nat) : Nat → List Nat → Nat → List AudioFrame × List Nat × Nat
  | 0, buf, seq => ([], buf, seq)
  | fuel + 1, buf, seq =>
    if 0 < fb ∧ fb ≤ buf.length then
      let rest := dataLoopFuel fb sr ch fuel (buf.drop fb) (seq + 1)
      (⟨buf.take fb, sr, ch, seq, false⟩ :: rest.1, rest.2)
    else ([], buf, seq)

/-- One invocation of the `data` handler: append the chunk to the
buffer, then run the frame-extraction loop.  Returns the emitted frames
and the new framer state.  (The claims' premise is that an `onFrame`
callback is registered, so emission is unconditional here.) -/
def onData (fb sr ch : Nat) (st : FramerState) (chunk : List Nat) : List AudioFrame × FramerState :=
  let buf := st.buffer ++ chunk
  let r := dataLoopFuel fb sr ch buf.length buf st.sequence
  (r.1, ⟨r.2.1, r.2.2⟩)

/-- A whole capture session's worth of `data` callbacks, in order. -/
def pushAll (fb sr ch : Nat) (st : FramerState) : List (List Nat) → List AudioFrame × FramerState
  | [] => ([], st)
  | c :: cs =>
    let r := onData fb sr ch st c
    let rest := pushAll fb sr ch r.2 cs
    (r.1 ++ rest.1, rest.2)

/-- `flushBuffer` from `createAudioStream`: if the buffer is non-empty,
emit one frame of exactly `frameBytes` bytes (`Buffer.alloc(frameBytes)`
pre-filled with zero bytes, the buffered bytes copied to its front),
with the next sequence number and `end_of_stream: false`, and clear the
buffer; otherwise emit nothing. -/
def flushBuffer (fb sr ch : Nat) (st : FramerState) : Option AudioFrame × FramerState :=
  if 0 < st.buffer.length then
    (some ⟨st.buffer.take fb ++ List.replicate (fb - st.buffer.length) 0, sr, ch, st.sequence, false⟩,
      ⟨[], st.sequence + 1⟩)
  else
    (none, st)

theorem dataLoopFuel_eq (fb sr ch : Nat) (hfb : 0 < fb) :
    ∀ fuel buf seq, buf.length ≤ fuel →
      dataLoopFuel fb sr ch fuel buf seq =
        ((List.range (buf.length / fb)).map
            (fun i => ⟨(buf.drop (i * fb)).take fb, sr, ch, seq + i, false⟩),
          buf.drop (fb * (buf.length / fb)), seq + buf.length / fb) := by
  intro fuel
  induction fuel with
  | zero =>
    intro buf seq hlen
    have hbuf : buf = [] := List.eq_nil_of_length_eq_zero (Nat.le_zero.mp hlen)
    subst hbuf
    simp [dataLoopFuel]
  | succ n ih =>
    intro buf seq hlen
    by_cases h : fb ≤ buf.length
    · have hdiv : buf.length / fb = (buf.length - fb) / fb + 1 := Nat.div_eq_sub_div hfb h
      have hlen2 : (buf.drop fb).length ≤ n := by
        simp only [List.length_drop]
        omega
      have hrec := ih (buf.drop fb) (seq + 1) hlen2
      simp only [dataLoopFuel, if_pos (And.intro hfb h), hrec]
      simp only [List.length_drop]
      rw [hdiv]
      refine Prod.ext ?_ (Prod.ext ?_ ?_)
      · show (⟨buf.take fb, sr, ch, seq, false⟩ : AudioFrame) ::
            (List.range ((buf.length - fb) / fb)).map
              (fun i => ⟨((buf.drop fb).drop (i * fb)).take fb, sr, ch, seq + 1 + i, false⟩)
          = (List.range ((buf.length - fb) / fb + 1)).map
              (fun i => ⟨(buf.drop (i * fb)).take fb, sr, ch, seq + i, false⟩)
        rw [List.range_succ_eq_map, List.map_cons, List.map_map]
        refine congrArg₂ _ ?_ ?_
        · simp
        · refine List.map_congr_left ?_
          intro i _
          have hd : (buf.drop fb).drop (i * fb) = buf.drop (Nat.succ i * fb) := by
            rw [List.drop_drop]
            refine congrArg₂ _ ?_ rfl
            rw [Nat.succ_mul]
            omega
          simp only [Function.comp_apply, hd]
          refine congrArg₂ (fun a b => AudioFrame.mk a sr ch b false) rfl ?_
          omega
      · show (buf.drop fb).drop (fb * ((buf.length - fb) / fb))
            = buf.drop (fb * ((buf.length - fb) / fb + 1))
        rw [List.drop_drop]
        refine congrArg₂ _ ?_ rfl
        rw [Nat.mul_add, Nat.mul_one]
        omega
      · show seq + 1 + (buf.length - fb) / fb = seq + ((buf.length - fb) / fb + 1)
        omega
    · have hdiv : buf.length / fb = 0 := Nat.div_eq_of_lt (Nat.lt_of_not_le h)
      have hguard : ¬ (0 < fb ∧ fb ≤ buf.length) := by
        intro hc
        exact h hc.2
      simp [dataLoopFuel, hguard, hdiv]

theorem onData_eq (fb sr ch : Nat) (hfb : 0 < fb) (st : FramerState) (chunk : List Nat) :
    onData fb sr ch st chunk =
      (((List.range ((st.buffer ++ chunk).length / fb)).map
          (fun i => ⟨((st.buffer ++ chunk).drop (i * fb)).take fb, sr, ch, st.sequence + i, false⟩)),
        ⟨(st.buffer ++ chunk).drop (fb * ((st.buffer ++ chunk).length / fb)),
          st.sequence + (st.buffer ++ chunk).length / fb⟩) := by
  have h := dataLoopFuel_eq fb sr ch hfb (st.buffer ++ chunk).length (st.buffer ++ chunk)
    st.sequence (le_refl _)
  unfold onData
  simp only [h]

theorem pushAll_eq (fb sr ch : Nat) (hfb : 0 < fb) :
    ∀ (chunks : List (List Nat)) (buf : List Nat) (seq : Nat), buf.length < fb →
      pushAll fb sr ch ⟨buf, seq⟩ chunks =
        (((List.range ((buf ++ chunks.flatten).length / fb)).map
            (fun i => ⟨((buf ++ chunks.flatten).drop (i * fb)).take fb, sr, ch, seq + i, false⟩)),
          ⟨(buf ++ chunks.flatten).drop (fb * ((buf ++ chunks.flatten).length / fb)),
            seq + (buf ++ chunks.flatten).length / fb⟩) := by
  intro chunks
  induction chunks with
  | nil =>
    intro buf seq hlt
    have h0 : buf.length / fb = 0 := Nat.div_eq_of_lt hlt
    simp [pushAll, h0]
  | cons c cs ih =>
    intro buf seq hlt
    have hdm := Nat.div_add_mod (buf ++ c).length fb
    have hmod := Nat.mod_lt (buf ++ c).length hfb
    have hrem1len : ((buf ++ c).drop (fb * ((buf ++ c).length / fb))).length
        = (buf ++ c).length % fb := by
      rw [List.length_drop]
      omega
    have hrec := ih ((buf ++ c).drop (fb * ((buf ++ c).length / fb)))
      (seq + (buf ++ c).length / fb) (by rw [hrem1len]; exact hmod)
    have hdropk1 : ((buf ++ c) ++ cs.flatten).drop (fb * ((buf ++ c).length / fb))
        = (buf ++ c).drop (fb * ((buf ++ c).length / fb)) ++ cs.flatten := by
      rw [List.drop_append_eq_append_drop]
      have h0 : fb * ((buf ++ c).length / fb) - (buf ++ c).length = 0 := by omega
      rw [h0, List.drop_zero]
    have hksplit : ((buf ++ c) ++ cs.flatten).length / fb
        = (buf ++ c).length / fb
          + ((buf ++ c).drop (fb * ((buf ++ c).length / fb)) ++ cs.flatten).length / fb := by
      rw [List.length_append ((buf ++ c).drop (fb * ((buf ++ c).length / fb))), hrem1len,
        List.length_append (buf ++ c)]
      conv_lhs => rw [← hdm]
      rw [Nat.add_assoc, Nat.mul_add_div hfb]
    simp only [pushAll, onData_eq fb sr ch hfb, hrec, List.flatten_cons, ← List.append_assoc,
      hksplit]
    refine Prod.ext ?_ ?_
    · dsimp only
      rw [List.range_add, List.map_append, List.map_map]
      refine congrArg₂ _ ?_ ?_
      · refine List.map_congr_left ?_
        intro i hi
        rw [List.mem_range] at hi
        have hik : i + 1 ≤ (buf ++ c).length / fb := hi
        have hle : i * fb + fb ≤ (buf ++ c).length := by
          have h1 : (i + 1) * fb ≤ ((buf ++ c).length / fb) * fb :=
            Nat.mul_le_mul_right _ hik
          have h2 : ((buf ++ c).length / fb) * fb ≤ (buf ++ c).length := by
            rw [Nat.mul_comm]
            omega
          have h3 : i * fb + fb = (i + 1) * fb := by ring
          omega
        refine congrArg (fun a => AudioFrame.mk a sr ch (seq + i) false) ?_
        have h0 : i * fb - (buf ++ c).length = 0 := by omega
        have h4 : fb - ((buf ++ c).drop (i * fb)).length = 0 := by
          rw [List.length_drop]
          omega
        conv_rhs => rw [List.drop_append_eq_append_drop, h0, List.drop_zero,
          List.take_append_eq_append_take, h4, List.take_zero, List.append_nil]
      · refine List.map_congr_left ?_
        intro i hi
        simp only [Function.comp_apply]
        refine congrArg₂ (fun a b => AudioFrame.mk a sr ch b false) ?_ ?_
        · refine congrArg _ ?_
          have h5 : ((buf ++ c).length / fb + i) * fb
              = fb * ((buf ++ c).length / fb) + i * fb := by
            ring
          rw [h5, ← List.drop_drop, hdropk1]
        · omega
    · dsimp only
      refine congrArg₂ FramerState.mk ?_ ?_
      · have h6 : fb * ((buf ++ c).length / fb
              + ((buf ++ c).drop (fb * ((buf ++ c).length / fb)) ++ cs.flatten).length / fb)
            = fb * ((buf ++ c).length / fb)
              + fb * (((buf ++ c).drop (fb * ((buf ++ c).length / fb)) ++ cs.flatten).length / fb) := by
          ring
        rw [h6, ← List.drop_drop, hdropk1]
      · omega

/-- Claim C1: for any sequence of pushed chunks totalling `k` complete
frames plus a remainder `r < frameBytes`, the `data` handler emits
exactly `k` frames whose payloads are the successive `frameBytes`-sized
slices of the concatenated input (regardless of the chunk split), all
with `end_of_stream = false`; a subsequent `flushBuffer` emits exactly
one further frame iff `r > 0`, carrying the `r` remainder bytes
followed by `frameBytes - r` zero bytes with `end_of_stream = false`
and leaving the remainder empty, and emits nothing if `r = 0`. -/
theorem framer_chunking_and_flush (fb sr ch : Nat) (hfb : 0 < fb) (chunks : List (List Nat)) :
    (pushAll fb sr ch ⟨[], 0⟩ chunks).1.map AudioFrame.audio
        = (List.range (chunks.flatten.length / fb)).map
            (fun i => (chunks.flatten.drop (i * fb)).take fb)
      ∧ (pushAll fb sr ch ⟨[], 0⟩ chunks).1.length = chunks.flatten.length / fb
      ∧ (∀ f ∈ (pushAll fb sr ch ⟨[], 0⟩ chunks).1, f.end_of_stream = false)
      ∧ (0 < chunks.flatten.length % fb →
          flushBuffer fb sr ch (pushAll fb sr ch ⟨[], 0⟩ chunks).2
            = (some ⟨chunks.flatten.drop ((chunks.flatten.length / fb) * fb)
                  ++ List.replicate (fb - chunks.flatten.length % fb) 0,
                sr, ch, chunks.flatten.length / fb, false⟩,
              ⟨[], chunks.flatten.length / fb + 1⟩))
      ∧ (chunks.flatten.length % fb = 0 →
          flushBuffer fb sr ch (pushAll fb sr ch ⟨[], 0⟩ chunks).2
            = (none, (pushAll fb sr ch ⟨[], 0⟩ chunks).2)) := by
  have hp := pushAll_eq fb sr ch hfb chunks [] 0 (by simpa using hfb)
  rw [List.nil_append] at hp
  have hdm := Nat.div_add_mod chunks.flatten.length fb
  have hmod : chunks.flatten.length % fb < fb := Nat.mod_lt _ hfb
  have hlenrem : (chunks.flatten.drop (fb * (chunks.flatten.length / fb))).length
      = chunks.flatten.length % fb := by
    rw [List.length_drop]
    omega
  refine ⟨?_, ?_, ?_, ?_, ?_⟩
  · rw [hp, List.map_map]
    rfl
  · rw [hp]
    simp
  · intro f hf
    rw [hp] at hf
    rcases List.mem_map.mp hf with ⟨i, _, rfl⟩
    rfl
  · intro hr
    rw [hp]
    simp only [flushBuffer, hlenrem, if_pos hr]
    have htake : (chunks.flatten.drop (fb * (chunks.flatten.length / fb))).take fb
        = chunks.flatten.drop (fb * (chunks.flatten.length / fb)) := by
      apply List.take_of_length_le
      rw [hlenrem]
      omega
    rw [htake]
    simp [Nat.zero_add, Nat.mul_comm]
  · intro hr
    rw [hp]
    simp only [flushBuffer, hlenrem, hr]
    simp

/-- The sequence numbers of all frames emitted through one session's
`onFrame` callback (the `data`-handler frames followed by the flush
frame, when there is one). -/
theorem framer_emitted_sequences (fb sr ch : Nat) (hfb : 0 < fb) (chunks : List (List Nat)) :
    ((pushAll fb sr ch ⟨[], 0⟩ chunks).1
        ++ (flushBuffer fb sr ch (pushAll fb sr ch ⟨[], 0⟩ chunks).2).1.toList).map
        AudioFrame.sequence
      = List.range (chunks.flatten.length / fb
          + if 0 < chunks.flatten.length % fb then 1 else 0) := by
  have hp := pushAll_eq fb sr ch hfb chunks [] 0 (by simpa using hfb)
  rw [List.nil_append] at hp
  have hdm := Nat.div_add_mod chunks.flatten.length fb
  have hlenrem : (chunks.flatten.drop (fb * (chunks.flatten.length / fb))).length
      = chunks.flatten.length % fb := by
    rw [List.length_drop]
    omega
  rw [hp]
  by_cases hr : 0 < chunks.flatten.length % fb
  · rw [if_pos hr]
    simp only [flushBuffer, hlenrem, if_pos hr]
    rw [List.map_append, List.map_map]
    simp only [Option.toList_some, List.map_cons, List.map_nil, Nat.zero_add]
    have hfun : (AudioFrame.sequence ∘ fun i =>
        (⟨(chunks.flatten.drop (i * fb)).take fb, sr, ch, i, false⟩ : AudioFrame)) = id := by
      funext i
      rfl
    rw [hfun, List.map_id, List.range_succ]
  · rw [if_neg hr]
    simp only [flushBuffer, hlenrem, if_neg hr]
    simp only [Option.toList_none, List.append_nil, List.map_map, Nat.zero_add, Nat.add_zero]
    have hfun : (AudioFrame.sequence ∘ fun i =>
        (⟨(chunks.flatten.drop (i * fb)).take fb, sr, ch, i, false⟩ : AudioFrame)) = id := by
      funext i
      rfl
    rw [hfun, List.map_id]

/-- Claim C2: within one capture session with an `onFrame` callback
registered from the start, the emitted frames (including the
flush-padded remainder frame) carry sequence numbers 0, 1, 2, ... in
order: the i-th emitted frame has sequence number i, whatever the
chunk-size granularity. -/
theorem framer_sequence_numbering (fb sr ch : Nat) (hfb : 0 < fb) (chunks : List (List Nat)) :
    ((pushAll fb sr ch ⟨[], 0⟩ chunks).1
        ++ (flushBuffer fb sr ch (pushAll fb sr ch ⟨[], 0⟩ chunks).2).1.toList).map
        AudioFrame.sequence
      = List.range (chunks.flatten.length / fb
          + if 0 < chunks.flatten.length % fb then 1 else 0) :=
  framer_emitted_sequences fb sr ch hfb chunks

/-- The frames written to the gRPC stream during one dictation session,
in order: the Framer's `data`-handler frames, the flush frame emitted
by `audioController.stop()` (both through the same `onFrame` path that
forwards to `dictationStream.write`), and finally the terminal frame
that `stopDictation` writes before half-closing the stream — which the
source hardcodes as `audio: Buffer.alloc(0), sequence: BigInt(0),
end_of_stream: true`. -/
def sessionWrites (fb sr ch : Nat) (chunks : List (List Nat)) : List AudioFrame :=
  (pushAll fb sr ch ⟨[], 0⟩ chunks).1
    ++ (flushBuffer fb sr ch (pushAll fb sr ch ⟨[], 0⟩ chunks).2).1.toList
    ++ [⟨[], sr, ch, 0, true⟩]

/-- Counterexample to claim C3: in a session that emitted one audio
frame (sequence 0), the terminal end-of-stream frame is written with
sequence number 0 as well, so its sequence number is not greater than
every previously written frame's sequence number, and the write
sequence is not strictly increasing. -/
theorem sessionWrites_counterexample :
    sessionWrites 2 16000 1 [[1, 2]]
        = [⟨[1, 2], 16000, 1, 0, false⟩, ⟨[], 16000, 1, 0, true⟩]
      ∧ ¬ ((⟨[], 16000, 1, 0, true⟩ : AudioFrame).sequence
            > (⟨[1, 2], 16000, 1, 0, false⟩ : AudioFrame).sequence) := by
  decide

/-- Claim C3 as amended: during one session the frames that reach the
stream through the Framer (including the flush-padded remainder frame)
are written in strictly increasing sequence order 0, 1, ..., n-1; the
terminal frame written by `stopDictation` is last, zero-length, has
`end_of_stream = true`, but carries the hardcoded sequence number 0 —
so it is not greater than the previous frames' sequence numbers
whenever at least one frame was emitted. -/
theorem sessionWrites_order (fb sr ch : Nat) (hfb : 0 < fb) (chunks : List (List Nat)) :
    (sessionWrites fb sr ch chunks).map AudioFrame.sequence
        = List.range (chunks.flatten.length / fb
            + if 0 < chunks.flatten.length % fb then 1 else 0) ++ [0]
      ∧ (sessionWrites fb sr ch chunks).getLast? = some ⟨[], sr, ch, 0, true⟩ := by
  constructor
  · unfold sessionWrites
    rw [List.map_append, framer_emitted_sequences fb sr ch hfb chunks]
    rfl
  · unfold sessionWrites
    rw [List.getLast?_concat]

theorem framer_chunking_and_flush_witness :
    0 < 2
    ∧ (pushAll 2 16000 1 ⟨[], 0⟩ [[1, 2, 3]]).1.map AudioFrame.audio = [[1, 2]]
    ∧ flushBuffer 2 16000 1 (pushAll 2 16000 1 ⟨[], 0⟩ [[1, 2, 3]]).2
        = (some ⟨[3, 0], 16000, 1, 1, false⟩, ⟨[], 2⟩) := by
  have h := framer_chunking_and_flush 2 16000 1 (by decide) [[1, 2, 3]]
  exact ⟨by decide, h.1, h.2.2.2.1 (by decide)⟩

theorem framer_sequence_numbering_witness :
    0 < 2
    ∧ ((pushAll 2 16000 1 ⟨[], 0⟩ [[1], [2, 3]]).1
        ++ (flushBuffer 2 16000 1 (pushAll 2 16000 1 ⟨[], 0⟩ [[1], [2, 3]]).2).1.toList).map
        AudioFrame.sequence = [0, 1] := by
  have h := framer_sequence_numbering 2 16000 1 (by decide) [[1], [2, 3]]
  exact ⟨by decide, h⟩

theorem sessionWrites_order_witness :
    0 < 2
    ∧ (sessionWrites 2 16000 1 [[1, 2]]).map AudioFrame.sequence = [0, 0]
    ∧ (sessionWrites 2 16000 1 [[1, 2]]).getLast? = some ⟨[], 16000, 1, 0, true⟩ := by
  have h := sessionWrites_order 2 16000 1 (by decide) [[1, 2]]
  exact ⟨by decide, h.1, h.2⟩

/-- The characters matched by `CONTROL_PATTERN` in `clipboard.ts`:
C0 controls excluding tab (U+0009), LF (U+000A) and CR (U+000D), i.e.
U+0000-U+0008, U+000B, U+000C, U+000E-U+001F. -/
def isStrippedControl (c : Char) : Bool :=
  c.toNat ≤ 0x08 || c.toNat == 0x0B || c.toNat == 0x0C
    || (0x0E ≤ c.toNat && c.toNat ≤ 0x1F)

/-- The characters matched by `BIDI_PATTERN` in `clipboard.ts`:
U+200E, U+200F, U+202A-U+202E, U+2066-U+2069. -/
def isBidiControl (c : Char) : Bool :=
  c.toNat == 0x200E || c.toNat == 0x200F
    || (0x202A ≤ c.toNat && c.toNat ≤ 0x202E)
    || (0x2066 ≤ c.toNat && c.toNat ≤ 0x2069)

/-- `text.replace(CONTROL_PATTERN, "")`. -/
def stripControl (s : List Char) : List Char :=
  s.filter (fun c => !(isStrippedControl c))

/-- `.replace(BIDI_PATTERN, "")`. -/
def stripBidi (s : List Char) : List Char :=
  s.filter (fun c => !(isBidiControl c))

/-- `.replace(/\r\n/g, "\n")`: a left-to-right, non-overlapping global
replacement of the two-character sequence CR LF by LF. -/
def replCRLF : List Char → List Char
  | [] => []
  | [c] => [c]
  | c1 :: c2 :: rest =>
    if c1 = '\r' ∧ c2 = '\n' then '\n' :: replCRLF rest
    else c1 :: replCRLF (c2 :: rest)

/-- `.replace(/\r/g, "\n")`: every remaining CR becomes LF. -/
def replCR (s : List Char) : List Char :=
  s.map (fun c => if c = '\r' then '\n' else c)

/-- `.replace(/\n/g, "\r\n")`: every LF becomes CR LF. -/
def lfToCRLF (s : List Char) : List Char :=
  s.flatMap (fun c => if c = '\n' then ['\r', '\n'] else [c])

/-- The whitespace class of JavaScript's `String.prototype.trimEnd`
(ECMAScript WhiteSpace plus LineTerminator). -/
def isJsWhitespace (c : Char) : Bool :=
  c.toNat == 0x09 || c.toNat == 0x0A || c.toNat == 0x0B || c.toNat == 0x0C
    || c.toNat == 0x0D || c.toNat == 0x20 || c.toNat == 0xA0 || c.toNat == 0x1680
    || (0x2000 ≤ c.toNat && c.toNat ≤ 0x200A) || c.toNat == 0x2028
    || c.toNat == 0x2029 || c.toNat == 0x202F || c.toNat == 0x205F
    || c.toNat == 0x3000 || c.toNat == 0xFEFF

/-- `.trimEnd()`: remove the trailing run of JavaScript whitespace. -/
def jsTrimEnd (s : List Char) : List Char :=
  (s.reverse.dropWhile isJsWhitespace).reverse

/-- `sanitizeText` from `clipboard.ts`, with the JavaScript runtime's
`String.prototype.normalize("NFC")` abstracted as the parameter `nfc`
(Unicode normalization tables are part of the runtime, not of this
repository): strip the control characters, strip the bidi controls,
NFC-normalize, rewrite every line ending to CRLF (CRLF to LF, lone CR
to LF, then LF to CRLF), trim trailing whitespace and append exactly
one space. -/
def sanitizeText (nfc : List Char → List Char) (text : List Char) : List Char :=
  jsTrimEnd (lfToCRLF (replCR (replCRLF (nfc (stripBidi (stripControl text)))))) ++ [' ']

/-- Claim C5: `sanitizeText` is exactly the five steps, applied in
this order: strip C0 controls except tab, LF and CR; strip bidi
controls; normalize to NFC; rewrite every line ending to CRLF; trim
trailing whitespace and append one space.  In particular, on the
11-character input "hello" NUL "world" it yields "helloworld " —
the hypothesis records the Unicode fact that NFC is the identity on
the ASCII string "helloworld". -/
theorem sanitizeText_spec (nfc : List Char → List Char)
    (hnfc : nfc ("helloworld".data) = "helloworld".data) :
    (∀ x, sanitizeText nfc x
        = jsTrimEnd (lfToCRLF (replCR (replCRLF (nfc (stripBidi (stripControl x)))))) ++ [' '])
      ∧ sanitizeText nfc ("hello".data ++ [Char.ofNat 0] ++ "world".data)
          = "helloworld ".data := by
  constructor
  · intro x
    rfl
  · have h1 : stripBidi (stripControl ("hello".data ++ [Char.ofNat 0] ++ "world".data))
        = "helloworld".data := by decide
    unfold sanitizeText
    rw [h1, hnfc]
    decide

theorem sanitizeText_spec_witness :
    (fun s => s) ("helloworld".data) = "helloworld".data
      ∧ sanitizeText (fun s => s) ("hello".data ++ [Char.ofNat 0] ++ "world".data)
          = "helloworld ".data := by
  have h := sanitizeText_spec (fun s => s) rfl
  exact ⟨rfl, h.2⟩

theorem replCRLF_subset (c : Char) : ∀ (l : List Char), c ∈ replCRLF l → c ∈ l
  | [] => by simp [replCRLF]
  | [c1] => by simp [replCRLF]
  | c1 :: c2 :: rest => by
    by_cases hc : c1 = '\r' ∧ c2 = '\n'
    · simp only [replCRLF, if_pos hc]
      intro h
      rcases List.mem_cons.mp h with h1 | h2
      · subst h1
        rw [hc.2]
        exact List.mem_cons_of_mem _ (List.mem_cons_self _ _)
      · exact List.mem_cons_of_mem _ (List.mem_cons_of_mem _ (replCRLF_subset c rest h2))
    · simp only [replCRLF, if_neg hc]
      intro h
      rcases List.mem_cons.mp h with h1 | h2
      · exact h1 ▸ List.mem_cons_self _ _
      · exact List.mem_cons_of_mem _ (replCRLF_subset c (c2 :: rest) h2)

theorem replCR_subset {c : Char} {l : List Char} (h : c ∈ replCR l) : c ∈ l ∨ c = '\n' := by
  rcases List.mem_map.mp h with ⟨a, ha, hfa⟩
  by_cases hr : a = '\r'
  · rw [if_pos hr] at hfa
    right
    exact hfa.symm
  · rw [if_neg hr] at hfa
    left
    exact hfa ▸ ha

theorem lfToCRLF_subset {c : Char} {l : List Char} (h : c ∈ lfToCRLF l) :
    c ∈ l ∨ c = '\r' := by
  rcases List.mem_flatMap.mp h with ⟨a, ha, hfa⟩
  by_cases hn : a = '\n'
  · rw [if_pos hn] at hfa
    rcases List.mem_cons.mp hfa with h1 | h2
    · right
      exact h1
    · left
      have : c = '\n' := by simpa using h2
      exact this ▸ hn ▸ ha
  · rw [if_neg hn] at hfa
    left
    have : c = a := by simpa using hfa
    exact this ▸ ha

theorem jsTrimEnd_subset {c : Char} {l : List Char} (h : c ∈ jsTrimEnd l) : c ∈ l := by
  unfold jsTrimEnd at h
  rw [List.mem_reverse] at h
  have := (List.dropWhile_sublist (l := l.reverse) (p := isJsWhitespace)).subset h
  exact List.mem_reverse.mp this

theorem replCR_noCR (l : List Char) : '\r' ∉ replCR l := by
  intro h
  rcases List.mem_map.mp h with ⟨a, _, hfa⟩
  by_cases hr : a = '\r'
  · rw [if_pos hr] at hfa
    exact absurd hfa (by decide)
  · rw [if_neg hr] at hfa
    exact hr hfa

theorem replCR_fix : ∀ (l : List Char), '\r' ∉ l → replCR l = l
  | [], _ => rfl
  | a :: t, h => by
    have ha : a ≠ '\r' := fun hh => h (hh ▸ List.mem_cons_self _ _)
    have ht : '\r' ∉ t := fun hh => h (List.mem_cons_of_mem _ hh)
    simp only [replCR, List.map_cons, if_neg ha]
    have := replCR_fix t ht
    simp only [replCR] at this
    rw [this]

theorem lfToCRLF_append (a b : List Char) :
    lfToCRLF (a ++ b) = lfToCRLF a ++ lfToCRLF b := by
  unfold lfToCRLF
  rw [List.flatMap_append]

theorem lfToCRLF_eq_nil : ∀ {l : List Char}, lfToCRLF l = [] → l = []
  | [], _ => rfl
  | a :: t, h => by
    exfalso
    simp only [lfToCRLF, List.flatMap_cons] at h
    by_cases hn : a = '\n' <;> simp [hn] at h

theorem replCRLF_lfToCRLF : ∀ (l : List Char), '\r' ∉ l → replCRLF (lfToCRLF l) = l
  | [], _ => rfl
  | a :: t, h => by
    have ha : a ≠ '\r' := fun hh => h (hh ▸ List.mem_cons_self _ _)
    have ht : '\r' ∉ t := fun hh => h (List.mem_cons_of_mem _ hh)
    simp only [lfToCRLF, List.flatMap_cons]
    by_cases hn : a = '\n'
    · subst hn
      simp only [if_pos rfl]
      show replCRLF ('\r' :: '\n' :: lfToCRLF t) = '\n' :: t
      simp only [replCRLF, if_pos (And.intro rfl rfl)]
      exact congrArg _ (replCRLF_lfToCRLF t ht)
    · rw [if_neg hn]
      show replCRLF (a :: lfToCRLF t) = a :: t
      cases hY : lfToCRLF t with
      | nil =>
        have : t = [] := lfToCRLF_eq_nil hY
        subst this
        rfl
      | cons y ys =>
        have hcond : ¬ (a = '\r' ∧ y = '\n') := fun hc => ha hc.1
        simp only [replCRLF, if_neg hcond]
        rw [← hY, replCRLF_lfToCRLF t ht]

theorem jsTrimEnd_append_single (l : List Char) (c : Char) :
    jsTrimEnd (l ++ [c]) = if isJsWhitespace c then jsTrimEnd l else l ++ [c] := by
  unfold jsTrimEnd
  rw [List.reverse_append, List.reverse_singleton, List.singleton_append,
    List.dropWhile_cons]
  by_cases hw : isJsWhitespace c
  · simp [hw]
  · simp [hw]

theorem dropWhile_idem (p : Char → Bool) :
    ∀ (l : List Char), (l.dropWhile p).dropWhile p = l.dropWhile p
  | [] => rfl
  | a :: t => by
    rw [List.dropWhile_cons]
    by_cases hp : p a
    · rw [if_pos hp]
      exact dropWhile_idem p t
    · rw [if_neg hp, List.dropWhile_cons, if_neg hp]

theorem jsTrimEnd_idem (l : List Char) : jsTrimEnd (jsTrimEnd l) = jsTrimEnd l := by
  unfold jsTrimEnd
  rw [List.reverse_reverse, dropWhile_idem]

theorem jsTrimEnd_lfToCRLF (l : List Char) :
    jsTrimEnd (lfToCRLF l) = lfToCRLF (jsTrimEnd l) := by
  induction l using List.reverseRecOn with
  | nil => rfl
  | append_singleton l c ih =>
    rw [lfToCRLF_append, jsTrimEnd_append_single l c]
    by_cases hw : isJsWhitespace c
    · rw [if_pos hw]
      by_cases hn : c = '\n'
      · subst hn
        show jsTrimEnd (lfToCRLF l ++ ['\r', '\n']) = lfToCRLF (jsTrimEnd l)
        have hsplit : lfToCRLF l ++ ['\r', '\n'] = (lfToCRLF l ++ ['\r']) ++ ['\n'] := by
          rw [List.append_assoc]
          rfl
        rw [hsplit, jsTrimEnd_append_single, if_pos (by decide), jsTrimEnd_append_single,
          if_pos (by decide), ih]
      · have hexp : lfToCRLF [c] = [c] := by
          simp [lfToCRLF, hn]
        rw [hexp, jsTrimEnd_append_single, if_pos hw, ih]
    · rw [if_neg hw]
      have hn : c ≠ '\n' := by
        intro hc
        subst hc
        exact hw (by decide)
      have hexp : lfToCRLF [c] = [c] := by
        simp [lfToCRLF, hn]
      rw [hexp, jsTrimEnd_append_single, if_neg hw, lfToCRLF_append, hexp]

theorem replCRLF_append_single : ∀ (l : List Char) (c : Char), c ≠ '\n' →
    replCRLF (l ++ [c]) = replCRLF l ++ [c]
  | [], c, _ => rfl
  | [a], c, hc => by
    have hcond : ¬ (a = '\r' ∧ c = '\n') := fun h => hc h.2
    simp only [List.singleton_append, replCRLF, if_neg hcond]
  | a :: b :: rest, c, hc => by
    show replCRLF (a :: b :: (rest ++ [c])) = replCRLF (a :: b :: rest) ++ [c]
    by_cases hab : a = '\r' ∧ b = '\n'
    · simp only [replCRLF, if_pos hab]
      rw [replCRLF_append_single rest c hc]
      rfl
    · simp only [replCRLF, if_neg hab]
      rw [show b :: (rest ++ [c]) = (b :: rest) ++ [c] from rfl,
        replCRLF_append_single (b :: rest) c hc]
      rfl

/-- Claim C6: `sanitizeText` is idempotent.  The hypotheses record the
facts about Unicode NFC that the proof needs, each true of the real
normalization: NFC is idempotent; a string in NFC form stays in NFC
form after the CRLF line-ending rewrite (CR and LF are inert starters),
and after trimming trailing whitespace and appending a space (prefixes
of NFC strings are NFC, and the space is an inert starter); and NFC
introduces no control or bidi-control characters into a string that has
none. -/
theorem sanitizeText_idem (nfc : List Char → List Char)
    (hidem : ∀ s, nfc (nfc s) = nfc s)
    (hlines : ∀ s, nfc s = s →
        nfc (lfToCRLF (replCR (replCRLF s))) = lfToCRLF (replCR (replCRLF s)))
    (htrim : ∀ s, nfc s = s → nfc (jsTrimEnd s ++ [' ']) = jsTrimEnd s ++ [' '])
    (hpres : ∀ s, (∀ c ∈ s, isStrippedControl c = false ∧ isBidiControl c = false) →
        ∀ c ∈ nfc s, isStrippedControl c = false ∧ isBidiControl c = false)
    (x : List Char) :
    sanitizeText nfc (sanitizeText nfc x) = sanitizeText nfc x := by
  set w := stripBidi (stripControl x) with hw
  set z := nfc w with hz
  set L := replCR (replCRLF z) with hL
  set T := jsTrimEnd (lfToCRLF L) with hT
  have hx : sanitizeText nfc x = T ++ [' '] := rfl
  have hwchars : ∀ c ∈ w, isStrippedControl c = false ∧ isBidiControl c = false := by
    intro c hc
    rw [hw] at hc
    unfold stripBidi at hc
    rcases List.mem_filter.mp hc with ⟨hc1, hb⟩
    unfold stripControl at hc1
    rcases List.mem_filter.mp hc1 with ⟨_, hs⟩
    constructor
    · exact Bool.not_eq_true' .. |>.mp hs
    · exact Bool.not_eq_true' .. |>.mp hb
  have hzchars : ∀ c ∈ z, isStrippedControl c = false ∧ isBidiControl c = false :=
    hpres w hwchars
  have hychars : ∀ c ∈ T ++ [' '], isStrippedControl c = false ∧ isBidiControl c = false := by
    intro c hc
    rcases List.mem_append.mp hc with hcT | hcs
    · have h1 : c ∈ lfToCRLF L := jsTrimEnd_subset (hT ▸ hcT)
      rcases lfToCRLF_subset h1 with h2 | hcr
      · rw [hL] at h2
        rcases replCR_subset h2 with h3 | hlf
        · exact hzchars c (replCRLF_subset c z h3)
        · subst hlf
          decide
      · subst hcr
        decide
    · have : c = ' ' := by simpa using hcs
      subst this
      decide
  have hstripC : stripControl (T ++ [' ']) = T ++ [' '] := by
    unfold stripControl
    refine List.filter_eq_self.mpr ?_
    intro c hc
    rw [Bool.not_eq_true', (hychars c hc).1]
  have hstripB : stripBidi (T ++ [' ']) = T ++ [' '] := by
    unfold stripBidi
    refine List.filter_eq_self.mpr ?_
    intro c hc
    rw [Bool.not_eq_true', (hychars c hc).2]
  have hnfcz : nfc z = z := by
    rw [hz]
    exact hidem w
  have hnfclf : nfc (lfToCRLF L) = lfToCRLF L := by
    rw [hL]
    exact hlines z hnfcz
  have hnfcy : nfc (T ++ [' ']) = T ++ [' '] := by
    rw [hT]
    exact htrim _ hnfclf
  have hnoCRL : '\r' ∉ L := hL ▸ replCR_noCR (replCRLF z)
  have hnoCRL' : '\r' ∉ jsTrimEnd L := fun hmem => hnoCRL (jsTrimEnd_subset hmem)
  have hTform : T = lfToCRLF (jsTrimEnd L) := by
    rw [hT, jsTrimEnd_lfToCRLF]
  have hlinesy : lfToCRLF (replCR (replCRLF (T ++ [' ']))) = T ++ [' '] := by
    rw [hTform, replCRLF_append_single _ _ (by decide), replCRLF_lfToCRLF _ hnoCRL']
    unfold replCR
    rw [List.map_append]
    have hsp : List.map (fun c => if c = '\r' then '\n' else c) [' '] = [' '] := by decide
    have hfix := replCR_fix (jsTrimEnd L) hnoCRL'
    unfold replCR at hfix
    rw [hsp, hfix, lfToCRLF_append]
    have hsp2 : lfToCRLF [' '] = [' '] := by decide
    rw [hsp2]
  have htrimy : jsTrimEnd (T ++ [' ']) = T := by
    rw [jsTrimEnd_append_single, if_pos (by decide), hT, jsTrimEnd_idem]
  rw [hx]
  show jsTrimEnd (lfToCRLF (replCR (replCRLF (nfc (stripBidi (stripControl (T ++ [' ']))))))) ++ [' ']
      = T ++ [' ']
  rw [hstripC, hstripB, hnfcy, hlinesy, htrimy]

theorem sanitizeText_idem_witness :
    sanitizeText (fun s => s) (sanitizeText (fun s => s) ("a\r\nb\rc\nd  ".data))
      = sanitizeText (fun s => s) ("a\r\nb\rc\nd  ".data) :=
  sanitizeText_idem (fun s => s) (fun _ => rfl) (fun _ _ => rfl) (fun _ _ => rfl)
    (fun _ hs c hc => hs c hc) ("a\r\nb\rc\nd  ".data)

/-- The mutable booleans of `registerHoldHotkey` in `hotkeys.ts`:
`key1Down`, `key2Down` and the edge-detection flag `active`. -/
structure HotkeyState where
  key1Down : Bool
  key2Down : Bool
  active : Bool
deriving DecidableEq

/-- The two callbacks a hold hotkey can fire. -/
inductive HotkeyCallback where
  | activate
  | deactivate
deriving DecidableEq

/-- `updateState` from `registerHoldHotkey`: recompute
`shouldBeActive = key1Down && key2Down` and fire `onActivate` only on
the false-to-true transition, `onDeactivate` only on the true-to-false
transition, nothing otherwise. -/
def updateState (st : HotkeyState) : HotkeyState × List HotkeyCallback :=
  let shouldBeActive := st.key1Down && st.key2Down
  if shouldBeActive && !st.active then
    ({ st with active := true }, [HotkeyCallback.activate])
  else if !shouldBeActive && st.active then
    ({ st with active := false }, [HotkeyCallback.deactivate])
  else
    (st, [])

/-- A raw key event delivered by the global hook. -/
inductive KeyEvent where
  | keydown (code : Nat)
  | keyup (code : Nat)
deriving DecidableEq

/-- The `keydown`/`keyup` listeners of `registerHoldHotkey`: set or
clear whichever down-flag's key-code set contains the event's code,
then run `updateState`. -/
def onKeyEvent (key1Codes key2Codes : List Nat) (st : HotkeyState) (ev : KeyEvent) :
    HotkeyState × List HotkeyCallback :=
  match ev with
  | KeyEvent.keydown code =>
    updateState
      { st with
        key1Down := if code ∈ key1Codes then true else st.key1Down,
        key2Down := if code ∈ key2Codes then true else st.key2Down }
  | KeyEvent.keyup code =>
    updateState
      { st with
        key1Down := if code ∈ key1Codes then false else st.key1Down,
        key2Down := if code ∈ key2Codes then false else st.key2Down }

/-- Run a sequence of raw key events through the tracker, collecting
the fired callbacks in order. -/
def runHotkey (key1Codes key2Codes : List Nat) (st : HotkeyState) :
    List KeyEvent → HotkeyState × List HotkeyCallback
  | [] => (st, [])
  | e :: es =>
    let r := onKeyEvent key1Codes key2Codes st e
    let rest := runHotkey key1Codes key2Codes r.1 es
    (rest.1, r.2 ++ rest.2)

/-- Claim C7: for the sequence key1-down, key2-down, key2-up, key1-up
(with the two codes drawn from the two disjoint key-code sets) the
tracker fires `onActivate` exactly once and `onDeactivate` exactly
once; moreover a keydown for a key whose down-flags are already set
fires nothing, and an event for a code in neither set fires nothing
(for any state whose `active` flag is consistent, which holds for
every reachable state). -/
theorem hold_hotkey_edges (s1 s2 : List Nat) (k1 k2 : Nat)
    (h1 : k1 ∈ s1) (h1n : k1 ∉ s2) (h2 : k2 ∈ s2) (h2n : k2 ∉ s1) :
    (runHotkey s1 s2 ⟨false, false, false⟩
        [KeyEvent.keydown k1, KeyEvent.keydown k2, KeyEvent.keyup k2, KeyEvent.keyup k1]).2
        = [HotkeyCallback.activate, HotkeyCallback.deactivate]
      ∧ (∀ st : HotkeyState, st.active = (st.key1Down && st.key2Down) →
          ∀ c, (c ∈ s1 → st.key1Down = true) → (c ∈ s2 → st.key2Down = true) →
            onKeyEvent s1 s2 st (KeyEvent.keydown c) = (st, []))
      ∧ (∀ st : HotkeyState, st.active = (st.key1Down && st.key2Down) →
          ∀ c, c ∉ s1 → c ∉ s2 →
            onKeyEvent s1 s2 st (KeyEvent.keydown c) = (st, [])
              ∧ onKeyEvent s1 s2 st (KeyEvent.keyup c) = (st, [])) := by
  refine ⟨?_, ?_, ?_⟩
  · simp [runHotkey, onKeyEvent, updateState, h1, h1n, h2, h2n]
  · intro st hinv c hc1 hc2
    have e1 : (if c ∈ s1 then true else st.key1Down) = st.key1Down := by
      by_cases h : c ∈ s1
      · rw [if_pos h, hc1 h]
      · rw [if_neg h]
    have e2 : (if c ∈ s2 then true else st.key2Down) = st.key2Down := by
      by_cases h : c ∈ s2
      · rw [if_pos h, hc2 h]
      · rw [if_neg h]
    simp only [onKeyEvent]
    rw [e1, e2]
    cases st with
    | mk a b act =>
      cases a <;> cases b <;> cases act <;> simp_all [updateState]
  · intro st hinv c hc1 hc2
    constructor <;>
      · simp only [onKeyEvent, if_neg hc1, if_neg hc2]
        cases st with
        | mk a b act =>
          cases a <;> cases b <;> cases act <;> simp_all [updateState]

theorem hold_hotkey_edges_witness :
    ((29 : Nat) ∈ [29, 3613] ∧ (29 : Nat) ∉ [56, 3640]
        ∧ (56 : Nat) ∈ [56, 3640] ∧ (56 : Nat) ∉ [29, 3613])
      ∧ (runHotkey [29, 3613] [56, 3640] ⟨false, false, false⟩
          [KeyEvent.keydown 29, KeyEvent.keydown 56, KeyEvent.keyup 56, KeyEvent.keyup 29]).2
          = [HotkeyCallback.activate, HotkeyCallback.deactivate] := by
  refine ⟨by decide, ?_⟩
  exact (hold_hotkey_edges [29, 3613] [56, 3640] 29 56
    (by decide) (by decide) (by decide) (by decide)).1

/-- A JSON value, as produced by `JSON.parse` in `decodeJson`
(`grpc-client.ts`). -/
inductive Json where
  | null
  | bool (b : Bool)
  | num (n : Int)
  | str (s : String)
  | arr (elems : List Json)
  | obj (fields : List (String × Json))

/-- JavaScript property access `payload.key` on a parsed JSON value:
a field lookup on an object, `undefined` (`none`) on any other
non-null value.  (Access on `null` throws and is handled separately in
`eventOfPayload`.) -/
def Json.getField : Json → String → Option Json
  | Json.obj fields, key => fields.lookup key
  | _, _ => none

/-- The test `typeof v === "object" && v` from
`deserializeDictationEvent`: true exactly for objects and arrays
(`typeof null` is "object" but `null` is falsy; anything absent is
`undefined`). -/
def isTruthyObject : Option Json → Bool
  | some (Json.obj _) => true
  | some (Json.arr _) => true
  | _ => false

/-- JavaScript `String(v)` coercion for the payload values that occur
on this wire (JSON scalars and objects).  Arrays coerce by joining
their elements; that case is modelled shallowly as the empty string
since no claim depends on it. -/
def jsToString : Json → String
  | Json.null => "null"
  | Json.bool true => "true"
  | Json.bool false => "false"
  | Json.num n => toString n
  | Json.str s => s
  | Json.arr _ => ""
  | Json.obj _ => "[object Object]"

/-- `String(v.key ?? "")`: the empty string when the field is absent
or null, the JavaScript string coercion otherwise. -/
def jsFieldString (v : Json) (key : String) : String :=
  match v.getField key with
  | none => ""
  | some Json.null => ""
  | some j => jsToString j

/-- JavaScript truthiness of a JSON value (`Boolean(v)`). -/
def jsTruthy : Json → Bool
  | Json.null => false
  | Json.bool b => b
  | Json.num n => n != 0
  | Json.str s => s != ""
  | Json.arr _ => true
  | Json.obj _ => true

/-- `Boolean(v.key)`: false when the field is absent, its truthiness
otherwise. -/
def isTruthyField (v : Json) (key : String) : Bool :=
  match v.getField key with
  | none => false
  | some j => jsTruthy j

/-- `typeof payload.key === "object" && payload.key ? payload.key :
undefined`. -/
def truthyObjectField (payload : Json) (key : String) : Option Json :=
  match payload.getField key with
  | some j => if isTruthyObject (some j) then some j else none
  | none => none

/-- The tagged event deserialized from the wire.  The source names the
first field `partial`; that word is a reserved keyword in Lean, so the
fields carry a `V` suffix here. -/
structure DictationEvent where
  partialV : Option String
  finalV : Option (String × Bool)
  statusV : Option (String × String)
  errorV : Option (String × String)
deriving DecidableEq

/-- The body of `deserializeDictationEvent` after `decodeJson`: each of
the four variants is populated, independently of the others, exactly
when the corresponding payload field is a truthy object; accessing a
property of a null payload throws a TypeError. -/
def eventOfPayload (payload : Json) : Except String DictationEvent :=
  match payload with
  | Json.null => Except.error "TypeError: cannot read properties of null"
  | _ =>
    Except.ok
      { partialV := (truthyObjectField payload "partial").map (fun p => jsFieldString p "text"),
        finalV := (truthyObjectField payload "final").map
          (fun f => (jsFieldString f "text", isTruthyField f "from_cache")),
        statusV := (truthyObjectField payload "status").map
          (fun s => (jsFieldString s "mode", jsFieldString s "detail")),
        errorV := (truthyObjectField payload "error").map
          (fun e => (jsFieldString e "code", jsFieldString e "message")) }

/-- `deserializeDictationEvent` from `grpc-client.ts`: an empty buffer
decodes to the empty object `\x7b\x7d`; otherwise the buffer is given
to `JSON.parse` (the runtime parser, abstracted as the `parse`
parameter, `none` meaning a parse error is thrown). -/
def deserializeDictationEvent (parse : List Nat → Option Json) (data : List Nat) :
    Except String DictationEvent :=
  match (if data.length = 0 then some (Json.obj []) else parse data) with
  | none => Except.error "SyntaxError: JSON.parse"
  | some payload => eventOfPayload payload

/-- How many of the four variants of an event are populated. -/
def populatedCount (ev : DictationEvent) : Nat :=
  (if ev.partialV.isSome then 1 else 0) + (if ev.finalV.isSome then 1 else 0)
    + (if ev.statusV.isSome then 1 else 0) + (if ev.errorV.isSome then 1 else 0)

/-- Counterexample to claim C8: on the empty input buffer,
`deserializeDictationEvent` decodes the empty object and returns an
event with zero populated variants, not exactly one. -/
theorem deserialize_empty_buffer_zero_variants :
    deserializeDictationEvent (fun _ => none) []
        = Except.ok ⟨none, none, none, none⟩
      ∧ populatedCount ⟨none, none, none, none⟩ ≠ 1 := by
  constructor
  · rfl
  · decide

theorem truthyObjectField_isSome (p : Json) (k : String) :
    (truthyObjectField p k).isSome = isTruthyObject (p.getField k) := by
  unfold truthyObjectField
  cases hg : p.getField k with
  | none => rfl
  | some j =>
    by_cases ht : isTruthyObject (some j)
    · simp [ht]
    · simp [ht]

theorem eventOfPayload_ok (payload : Json) (hnn : payload ≠ Json.null) :
    eventOfPayload payload = Except.ok
      { partialV := (truthyObjectField payload "partial").map (fun p => jsFieldString p "text"),
        finalV := (truthyObjectField payload "final").map
          (fun f => (jsFieldString f "text", isTruthyField f "from_cache")),
        statusV := (truthyObjectField payload "status").map
          (fun s => (jsFieldString s "mode", jsFieldString s "detail")),
        errorV := (truthyObjectField payload "error").map
          (fun e => (jsFieldString e "code", jsFieldString e "message")) } := by
  cases payload with
  | null => exact absurd rfl hnn
  | bool b => rfl
  | num n => rfl
  | str s => rfl
  | arr elems => rfl
  | obj fields => rfl

/-- Claim C8 as amended: `deserializeDictationEvent` populates each of
the four variants independently of the others — a variant is populated
exactly when the corresponding payload field is a truthy object — so
any number of variants from zero (e.g. the empty buffer) to four may
be populated; "exactly one" holds only when the backend's payload
itself contains exactly one such field. -/
theorem deserialize_variants_independent (payload : Json) (ev : DictationEvent)
    (h : eventOfPayload payload = Except.ok ev) :
    ev.partialV.isSome = isTruthyObject (payload.getField "partial")
      ∧ ev.finalV.isSome = isTruthyObject (payload.getField "final")
      ∧ ev.statusV.isSome = isTruthyObject (payload.getField "status")
      ∧ ev.errorV.isSome = isTruthyObject (payload.getField "error") := by
  have hnn : payload ≠ Json.null := by
    intro h0
    subst h0
    simp [eventOfPayload] at h
  rw [eventOfPayload_ok payload hnn] at h
  injection h with h'
  rw [← h']
  refine ⟨?_, ?_, ?_, ?_⟩ <;> simp [Option.isSome_map, truthyObjectField_isSome]

theorem deserialize_variants_independent_witness :
    eventOfPayload (Json.obj [("partial", Json.obj [("text", Json.str "hi")]),
        ("error", Json.obj [])])
        = Except.ok ⟨some "hi", none, none, some ("", "")⟩
      ∧ (some "hi" : Option String).isSome
          = isTruthyObject ((Json.obj [("partial", Json.obj [("text", Json.str "hi")]),
              ("error", Json.obj [])]).getField "partial")
      ∧ (some ("", "") : Option (String × String)).isSome
          = isTruthyObject ((Json.obj [("partial", Json.obj [("text", Json.str "hi")]),
              ("error", Json.obj [])]).getField "error") := by
  have h := deserialize_variants_independent
    (Json.obj [("partial", Json.obj [("text", Json.str "hi")]), ("error", Json.obj [])])
    ⟨some "hi", none, none, some ("", "")⟩ rfl
  exact ⟨rfl, h.1, h.2.2.2⟩

/-- The orchestrator's session states (main process). -/
inductive DictationState where
  | IDLE
  | RECORDING
  | PROCESSING
  | ERROR
deriving DecidableEq

/-- The overlay display kinds used by `showOverlay`. -/
inductive OverlayKind where
  | listening
  | processing
  | inserted
  | error
deriving DecidableEq

/-- The observable side effects the stream `data` handler can perform. -/
inductive MainAction where
  | showOverlay (text : String) (kind : OverlayKind)
  | addTranscript (text : String)
  | sendDictationFinal (text : String)
  | setClipboardText (text : String)
  | sendPaste
  | sendDictationState (state : DictationState)
deriving DecidableEq

/-- The stream `data` handler that `startDictation` registers via
`streamAudio` (main process): on a partial event show the overlay, on
a final event sanitize the text, append it to history, notify the
renderer, write the clipboard, send the paste and show "Inserted", on
an error event mark the error state.  The `currentState` parameter is
the session state at the moment the event arrives; the handler's body
never consults it — which is exactly what claim C4 is about. -/
def streamEventHandler (nfc : List Char → List Char) (currentState : DictationState)
    (event : DictationEvent) : List MainAction :=
  (match event.partialV with
    | some text =>
      [MainAction.showOverlay (if text = "" then "Listening..." else text) OverlayKind.listening]
    | none => [])
  ++ (match event.finalV with
    | some f =>
      let sanitized := String.mk (sanitizeText nfc f.1.data)
      [MainAction.addTranscript sanitized,
        MainAction.sendDictationFinal sanitized,
        MainAction.setClipboardText sanitized,
        MainAction.sendPaste,
        MainAction.showOverlay ("Inserted: " ++ sanitized.take 30) OverlayKind.inserted]
    | none => [])
  ++ (match event.errorV with
    | some e =>
      [MainAction.sendDictationState DictationState.ERROR,
        MainAction.showOverlay e.2 OverlayKind.error]
    | none => [])

set_option maxRecDepth 8192 in
/-- Claim C4 is violated by the code: the stream event handler does
not check the current session state before acting.  A final event
delivered while the session state is IDLE (e.g. after the PROCESSING
timeout has fired and reset the session) still sanitizes the text,
records it to history, writes the clipboard and triggers a paste; the
handler's actions are identical in every session state. -/
theorem stale_final_event_still_inserts :
    streamEventHandler (fun s => s) DictationState.IDLE
        ⟨none, some ("stale text", false), none, none⟩
      = [MainAction.addTranscript "stale text ",
          MainAction.sendDictationFinal "stale text ",
          MainAction.setClipboardText "stale text ",
          MainAction.sendPaste,
          MainAction.showOverlay "Inserted: stale text " OverlayKind.inserted]
      ∧ ∀ st : DictationState,
          streamEventHandler (fun s => s) st ⟨none, some ("stale text", false), none, none⟩
            = streamEventHandler (fun s => s) DictationState.IDLE
                ⟨none, some ("stale text", false), none, none⟩ := by
  constructor
  · rfl
  · intro st
    cases st <;> rfl

/-- `MAX_HISTORY` from `history.ts`. -/
def MAX_HISTORY : Nat := 10

/-- JavaScript `array.slice(-n)` for `n > 0`: the last `min n length`
elements. -/
def jsSliceLast (n : Nat) (l : List String) : List String :=
  l.drop (l.length - n)

/-- `addTranscript`: append the new transcript and keep only the last
`MAX_HISTORY` entries (`[...history, text].slice(-MAX_HISTORY)`). -/
def addTranscript (history : List String) (text : String) : List String :=
  jsSliceLast MAX_HISTORY (history ++ [text])

/-- `loadHistory`: a persisted file that exists, parses, and is an
array of strings yields its last `MAX_HISTORY` entries; anything else
(missing file, parse error, wrong shape) yields the empty history. -/
def loadHistory (parsed : Option (List String)) : List String :=
  match parsed with
  | some items => jsSliceLast MAX_HISTORY items
  | none => []

/-- `getHistory`: the stored list, oldest first (the source returns a
fresh copy of the array; in a pure model the copy is the list itself). -/
def getHistory (history : List String) : List String :=
  history

/-- `getLastTranscript`: `null` when the history is empty, otherwise
`history[history.length - 1]`. -/
def getLastTranscript (history : List String) : Option String :=
  if history.length = 0 then none else history.getLast?

/-- Claim C9: the transcript history is bounded at `MAX_HISTORY = 10`
entries: `addTranscript` appends at the end and drops the oldest
entries beyond 10; loading a longer persisted list truncates to its
last 10 entries; `getHistory` returns the stored list in insertion
order; and `getLastTranscript` returns the most recently added entry,
or `none` on the empty history. -/
theorem history_bounded_and_ordered :
    (∀ h t, (addTranscript h t).length ≤ MAX_HISTORY)
      ∧ (∀ h t, h.length < MAX_HISTORY → addTranscript h t = h ++ [t])
      ∧ (∀ h t, addTranscript h t = (h ++ [t]).drop (h.length + 1 - MAX_HISTORY))
      ∧ (∀ l, (loadHistory (some l)).length ≤ MAX_HISTORY
          ∧ loadHistory (some l) = l.drop (l.length - MAX_HISTORY))
      ∧ loadHistory none = []
      ∧ (∀ h, getHistory h = h)
      ∧ getLastTranscript [] = none
      ∧ (∀ h t, getLastTranscript (addTranscript h t) = some t) := by
  refine ⟨?_, ?_, ?_, ?_, rfl, fun h => rfl, rfl, ?_⟩
  · intro h t
    simp only [addTranscript, jsSliceLast, List.length_drop, MAX_HISTORY]
    omega
  · intro h t hlt
    have h0 : (h ++ [t]).length - MAX_HISTORY = 0 := by
      simp only [List.length_append, List.length_singleton, MAX_HISTORY] at *
      omega
    simp only [addTranscript, jsSliceLast, h0, List.drop_zero]
  · intro h t
    simp only [addTranscript, jsSliceLast, List.length_append, List.length_singleton]
  · intro l
    constructor
    · simp only [loadHistory, jsSliceLast, List.length_drop, MAX_HISTORY]
      omega
    · rfl
  · intro h t
    have hd : (h ++ [t]).length - MAX_HISTORY - h.length = 0 := by
      simp only [List.length_append, List.length_singleton, MAX_HISTORY]
      omega
    unfold addTranscript jsSliceLast getLastTranscript
    rw [List.drop_append_eq_append_drop, hd, List.drop_zero]
    have hne : (h.drop ((h ++ [t]).length - MAX_HISTORY) ++ [t]).length ≠ 0 := by
      simp
    rw [if_neg hne, List.getLast?_concat]

theorem history_bounded_and_ordered_witness :
    (["a", "b"] : List String).length < MAX_HISTORY
      ∧ addTranscript ["a", "b"] "c" = ["a", "b"] ++ ["c"]
      ∧ getLastTranscript (addTranscript ["a", "b"] "c") = some "c" := by
  have h := history_bounded_and_ordered
  exact ⟨by decide, h.2.1 ["a", "b"] "c" (by decide), h.2.2.2.2.2.2.2 ["a", "b"] "c"⟩

/-- `HotkeySettings` from `settings.ts` (the preset union type is
modelled as a string). -/
structure HotkeySettings where
  preset : String
  modifiers : List Nat
  debounceMs : Nat
deriving DecidableEq

/-- `AudioSettings` from `settings.ts`. -/
structure AudioSettings where
  deviceIndex : Option Int
  deviceName : Option String
  sampleRateHz : Nat
  channels : Nat
  frameMs : Nat
  maxDurationSeconds : Nat
deriving DecidableEq

/-- `BackendSettings` from `settings.ts`. -/
structure BackendSettings where
  host : String
  port : Nat
  timeoutSeconds : Nat
  autoReconnect : Bool
deriving DecidableEq

/-- `OverlaySettings` from `settings.ts`. -/
structure OverlaySettings where
  enabled : Bool
  position : String
  xOffset : Int
  yOffset : Int
  autoHideMs : Nat
deriving DecidableEq

/-- `PasteSettings` from `settings.ts`. -/
structure PasteSettings where
  focusDelayMs : Nat
  restoreDelayMs : Nat
deriving DecidableEq

/-- `AppSettings` from `settings.ts`. -/
structure AppSettings where
  hotkey : HotkeySettings
  audio : AudioSettings
  backend : BackendSettings
  overlay : OverlaySettings
  paste : PasteSettings
  startMinimized : Bool
  showNotifications : Bool
deriving DecidableEq

/-- `HOTKEY_PRESETS` from `settings.ts`: uIOhook keycodes for each
preset. -/
def HOTKEY_PRESETS (preset : String) : List Nat :=
  if preset = "ctrl+alt" then [29, 56]
  else if preset = "ctrl+shift" then [29, 42]
  else if preset = "alt+shift" then [56, 42]
  else if preset = "win+alt" then [3675, 56]
  else []

/-- `DEFAULT_SETTINGS` from `settings.ts`. -/
def DEFAULT_SETTINGS : AppSettings :=
  { hotkey := ⟨"ctrl+alt", HOTKEY_PRESETS "ctrl+alt", 40⟩,
    audio := ⟨none, none, 16000, 1, 20, 60⟩,
    backend := ⟨"127.0.0.1", 50051, 30, true⟩,
    overlay := ⟨true, "top-right", 20, 20, 2000⟩,
    paste := ⟨50, 100⟩,
    startMinimized := true,
    showNotifications := true }

/-- A `Partial<HotkeySettings>` as produced by `JSON.parse`: each field
present or absent. -/
structure PartialHotkeySettings where
  preset : Option String := none
  modifiers : Option (List Nat) := none
  debounceMs : Option Nat := none
deriving DecidableEq

/-- A `Partial<AudioSettings>`. -/
structure PartialAudioSettings where
  deviceIndex : Option (Option Int) := none
  deviceName : Option (Option String) := none
  sampleRateHz : Option Nat := none
  channels : Option Nat := none
  frameMs : Option Nat := none
  maxDurationSeconds : Option Nat := none
deriving DecidableEq

/-- A `Partial<BackendSettings>`. -/
structure PartialBackendSettings where
  host : Option String := none
  port : Option Nat := none
  timeoutSeconds : Option Nat := none
  autoReconnect : Option Bool := none
deriving DecidableEq

/-- A `Partial<OverlaySettings>`. -/
structure PartialOverlaySettings where
  enabled : Option Bool := none
  position : Option String := none
  xOffset : Option Int := none
  yOffset : Option Int := none
  autoHideMs : Option Nat := none
deriving DecidableEq

/-- A `Partial<PasteSettings>`. -/
structure PartialPasteSettings where
  focusDelayMs : Option Nat := none
  restoreDelayMs : Option Nat := none
deriving DecidableEq

/-- A `Partial<AppSettings>` parsed from the settings file. -/
structure PartialAppSettings where
  hotkey : Option PartialHotkeySettings := none
  audio : Option PartialAudioSettings := none
  backend : Option PartialBackendSettings := none
  overlay : Option PartialOverlaySettings := none
  paste : Option PartialPasteSettings := none
  startMinimized : Option Bool := none
  showNotifications : Option Bool := none
deriving DecidableEq

/-- The section merge `clause : ... DEFAULT_SETTINGS.hotkey, ...parsed.hotkey`:
spreading `undefined` adds nothing; a present section overrides the
default field-by-field. -/
def mergeHotkey (d : HotkeySettings) (p : Option PartialHotkeySettings) : HotkeySettings :=
  match p with
  | none => d
  | some q => ⟨q.preset.getD d.preset, q.modifiers.getD d.modifiers, q.debounceMs.getD d.debounceMs⟩

def mergeAudio (d : AudioSettings) (p : Option PartialAudioSettings) : AudioSettings :=
  match p with
  | none => d
  | some q =>
    ⟨q.deviceIndex.getD d.deviceIndex, q.deviceName.getD d.deviceName,
      q.sampleRateHz.getD d.sampleRateHz, q.channels.getD d.channels,
      q.frameMs.getD d.frameMs, q.maxDurationSeconds.getD d.maxDurationSeconds⟩

def mergeBackend (d : BackendSettings) (p : Option PartialBackendSettings) : BackendSettings :=
  match p with
  | none => d
  | some q =>
    ⟨q.host.getD d.host, q.port.getD d.port, q.timeoutSeconds.getD d.timeoutSeconds,
      q.autoReconnect.getD d.autoReconnect⟩

def mergeOverlay (d : OverlaySettings) (p : Option PartialOverlaySettings) : OverlaySettings :=
  match p with
  | none => d
  | some q =>
    ⟨q.enabled.getD d.enabled, q.position.getD d.position, q.xOffset.getD d.xOffset,
      q.yOffset.getD d.yOffset, q.autoHideMs.getD d.autoHideMs⟩

def mergePaste (d : PasteSettings) (p : Option PartialPasteSettings) : PasteSettings :=
  match p with
  | none => d
  | some q => ⟨q.focusDelayMs.getD d.focusDelayMs, q.restoreDelayMs.getD d.restoreDelayMs⟩

/-- The three outcomes of reading the settings file in `loadSettings`:
the file does not exist, it exists but reading or `JSON.parse` throws,
or it parses to a partial settings object. -/
inductive SettingsFile where
  | missing
  | invalid
  | valid (parsed : PartialAppSettings)

/-- `loadSettings` from `settings.ts`: defaults when the file is
missing; defaults when reading or parsing throws (the `catch` branch);
otherwise the parsed partial settings deep-merged over the defaults
section by section. -/
def loadSettings : SettingsFile → AppSettings
  | SettingsFile.missing => DEFAULT_SETTINGS
  | SettingsFile.invalid => DEFAULT_SETTINGS
  | SettingsFile.valid p =>
    { hotkey := mergeHotkey DEFAULT_SETTINGS.hotkey p.hotkey,
      audio := mergeAudio DEFAULT_SETTINGS.audio p.audio,
      backend := mergeBackend DEFAULT_SETTINGS.backend p.backend,
      overlay := mergeOverlay DEFAULT_SETTINGS.overlay p.overlay,
      paste := mergePaste DEFAULT_SETTINGS.paste p.paste,
      startMinimized := p.startMinimized.getD DEFAULT_SETTINGS.startMinimized,
      showNotifications := p.showNotifications.getD DEFAULT_SETTINGS.showNotifications }

/-- Claim C10: `loadSettings` is total and default-completing: a
missing or unreadable/unparsable file yields the built-in defaults; a
parsed file is deep-merged over the defaults section by section, so
omitted sections fall back entirely to the defaults, omitted fields of
a present section fall back individually, and present fields win. -/
theorem loadSettings_total_with_defaults :
    loadSettings SettingsFile.missing = DEFAULT_SETTINGS
      ∧ loadSettings SettingsFile.invalid = DEFAULT_SETTINGS
      ∧ loadSettings (SettingsFile.valid {}) = DEFAULT_SETTINGS
      ∧ (∀ p : PartialAppSettings,
          (p.hotkey = none → (loadSettings (SettingsFile.valid p)).hotkey
              = DEFAULT_SETTINGS.hotkey)
            ∧ (p.audio = none → (loadSettings (SettingsFile.valid p)).audio
              = DEFAULT_SETTINGS.audio)
            ∧ (p.backend = none → (loadSettings (SettingsFile.valid p)).backend
              = DEFAULT_SETTINGS.backend)
            ∧ (p.overlay = none → (loadSettings (SettingsFile.valid p)).overlay
              = DEFAULT_SETTINGS.overlay)
            ∧ (p.paste = none → (loadSettings (SettingsFile.valid p)).paste
              = DEFAULT_SETTINGS.paste)
            ∧ (p.startMinimized = none →
              (loadSettings (SettingsFile.valid p)).startMinimized = true))
      ∧ (∀ (p : PartialAppSettings) (q : PartialBackendSettings), p.backend = some q →
          (loadSettings (SettingsFile.valid p)).backend.host = q.host.getD "127.0.0.1"
            ∧ (loadSettings (SettingsFile.valid p)).backend.port = q.port.getD 50051
            ∧ (loadSettings (SettingsFile.valid p)).backend.timeoutSeconds
              = q.timeoutSeconds.getD 30) := by
  refine ⟨rfl, rfl, rfl, ?_, ?_⟩
  · intro p
    refine ⟨?_, ?_, ?_, ?_, ?_, ?_⟩ <;>
      · intro hnone
        simp [loadSettings, mergeHotkey, mergeAudio, mergeBackend, mergeOverlay, mergePaste,
          hnone, DEFAULT_SETTINGS]
  · intro p q hq
    simp [loadSettings, mergeBackend, hq, DEFAULT_SETTINGS]

theorem loadSettings_total_with_defaults_witness :
    ({ backend := some { host := some "10.0.0.5" } } : PartialAppSettings).hotkey = none
      ∧ (loadSettings (SettingsFile.valid
            { backend := some { host := some "10.0.0.5" } })).hotkey
          = DEFAULT_SETTINGS.hotkey
      ∧ ({ backend := some { host := some "10.0.0.5" } } : PartialAppSettings).backend
          = some { host := some "10.0.0.5" }
      ∧ (loadSettings (SettingsFile.valid
            { backend := some { host := some "10.0.0.5" } })).backend.host
          = (some "10.0.0.5").getD "127.0.0.1"
      ∧ (loadSettings (SettingsFile.valid
            { backend := some { host := some "10.0.0.5" } })).backend.port
          = (none : Option Nat).getD 50051 := by
  have h := loadSettings_total_with_defaults
  have h4 := (h.2.2.2.1 { backend := some { host := some "10.0.0.5" } }).1 rfl
  have h5 := h.2.2.2.2 { backend := some { host := some "10.0.0.5" } }
    { host := some "10.0.0.5" } rfl
  exact ⟨rfl, h4, rfl, h5.1, h5.2.1⟩

end ParaKey
